import Mathlib

/-!
# Questify — a mini text search engine: verification of the core pipeline

Shallow embedding of the Questify search engine (Python sources under
`src/`): text preprocessing (`utils/text_preprocessor.py`), query
processing (`core/query_processor.py`), the TF-IDF indexer
(`core/indexer.py`), cosine similarity (`core/similarity.py`), the result
ranker (`core/ranker.py`) and the engine facade (`main/main.py`).

Python dictionaries are embedded as insertion-ordered association lists
(`List (String × _)`), Python sets as duplicate-free lists, floats as real
numbers, and the `try/except` boundary of `search` as an `Except`-valued
core caught by a total wrapper.  Strings are processed on their character
lists.  The iteration order of a Python `set` (used when updating the
vocabulary) is modelled as first-occurrence order; no property below
depends on that order.
-/

namespace Questify

/-! ## Text preprocessor (`utils/text_preprocessor.py`)

`preprocess` lowercases, substitutes `re.sub(r'[^a-zA-Z0-9\\s]', ' ', text)`,
splits on whitespace, and filters by length and stopwords.  Note that the
pattern is a *raw* Python string containing two backslashes, so the
character class is `[^a-zA-Z0-9\\s]`: the characters *kept* are the ASCII
alphanumerics, the literal backslash, and `s` (already alphanumeric);
every other character — whitespace included — is replaced by a space. -/

/-- The stopword set `TextPreprocessor.STOPWORDS` (the Python set literal
lists `'the'` and `'what'` twice; a set keeps one copy). -/
def STOPWORDS : List String :=
  ["a", "an", "and", "are", "as", "at", "be", "by", "for", "from",
   "has", "he", "in", "is", "it", "its", "of", "on", "that", "the",
   "to", "was", "will", "with", "this", "but", "they", "have",
   "had", "what", "said", "each", "which", "their", "time", "if",
   "up", "out", "many", "then", "them", "these", "so", "some", "her",
   "would", "make", "like", "into", "him", "two", "more", "very",
   "know", "just", "first", "get", "over", "think", "also",
   "your", "work", "life", "only", "can", "still", "should", "after",
   "being", "now", "made", "before", "here", "through", "when", "where"]

/-- A character the substitution `re.sub(r'[^a-zA-Z0-9\\s]', ' ', text)`
leaves in place: ASCII alphanumerics and the literal backslash (the `\\`
in the raw-string character class). -/
def docKeepChar (c : Char) : Bool :=
  c.isAlphanum || c == '\\'

/-- Split a character list on whitespace, discarding empty pieces: the
behaviour of Python's argumentless `str.split`.  `acc` holds the current
word reversed. -/
def splitWsAux : List Char → List Char → List (List Char)
  | [], acc => if acc.isEmpty then [] else [acc.reverse]
  | c :: rest, acc =>
    if c.isWhitespace then
      if acc.isEmpty then splitWsAux rest []
      else acc.reverse :: splitWsAux rest []
    else splitWsAux rest (c :: acc)

def splitWs (cs : List Char) : List String :=
  (splitWsAux cs []).map (fun w => String.mk w)

/-- `TextPreprocessor.preprocess`: lowercase, replace every character the
mis-escaped character class does not keep by a space, split on whitespace,
drop tokens shorter than `minTokenLength`, and (when enabled) drop
stopwords. -/
def preprocess (removeStopwords : Bool) (minTokenLength : Nat) (text : String) : List String :=
  if text.data.isEmpty then []
  else
    let lowered := text.data.map Char.toLower
    let cleaned := lowered.map (fun c => if docKeepChar c then c else ' ')
    let tokens := splitWs cleaned
    tokens.filter (fun t =>
      decide (minTokenLength ≤ t.length) && !(removeStopwords && STOPWORDS.contains t))

/-- The engine's preprocessor configuration: `remove_stopwords = True`,
`min_token_length = 3` (defaults of `config.py`). -/
def preprocessDefault (text : String) : List String :=
  preprocess true 3 text

/-! ## Query processor (`core/query_processor.py`)

`_clean_query` runs two substitutions, both written as raw strings with a
doubled backslash:

* `re.sub(r'\\s+', ' ', query.strip())` — the pattern matches a *literal*
  backslash followed by one or more letters `s` (not runs of whitespace);
* `re.sub(r'[^a-zA-Z0-9\\s\\-_.,!?]', '', cleaned)` — the class keeps the
  ASCII alphanumerics, `s`, the range `\`..`_` (that is `\`, `]`, `^`,
  `_`) and `.`, `,`, `!`, `?`; every other character — spaces and hyphens
  included — is deleted. -/

/-- One rewrite pass of `re.sub(r'\\s+', ' ', ·)`: each leftmost maximal
occurrence of a literal backslash followed by one or more `s` becomes a
single space.  The flag records that the scanner is inside the `s`-run of
a match (the space for it has already been emitted). -/
def collapseBSAux : Bool → List Char → List Char
  | _, [] => []
  | skipS, c :: rest =>
    if skipS && c == 's' then collapseBSAux true rest
    else if c == '\\' && rest.head? == some 's' then ' ' :: collapseBSAux true rest
    else c :: collapseBSAux false rest

def collapseBackslashS (cs : List Char) : List Char :=
  collapseBSAux false cs

/-- Python's argumentless `str.strip`: drop whitespace from both ends. -/
def stripChars (cs : List Char) : List Char :=
  ((cs.dropWhile Char.isWhitespace).reverse.dropWhile Char.isWhitespace).reverse

/-- A character the second substitution of `_clean_query` keeps:
`[^a-zA-Z0-9\\s\\-_.,!?]` deletes everything outside the alphanumerics,
`\`, `]`, `^`, `_` (the range `\\-_`), `.`, `,`, `!` and `?`. -/
def queryKeepChar (c : Char) : Bool :=
  c.isAlphanum || ['\\', ']', '^', '_', '.', ',', '!', '?'].contains c

/-- `QueryProcessor._clean_query`. -/
def cleanQuery (query : String) : String :=
  let stripped := stripChars query.data
  let step1 := collapseBackslashS stripped
  String.mk (step1.filter queryKeepChar)

/-- `QueryProcessor.process_query` (the engine's preprocessor runs with the
default configuration). -/
def processQuery (rawQuery : String) : List String :=
  if rawQuery.data.isEmpty || (stripChars rawQuery.data).isEmpty then []
  else preprocessDefault (cleanQuery rawQuery)

/-- `QueryProcessor.validate_query`: at least one term that is non-empty
after stripping. -/
def validateQuery (queryTerms : List String) : Bool :=
  if queryTerms.isEmpty then false
  else !(queryTerms.filter (fun t => !(stripChars t.data).isEmpty)).isEmpty

end Questify

namespace Questify

/-! ## TF-IDF indexer (`core/indexer.py`)

The indexer's mutable attributes become an `IndexerState`.  `documents`
and the per-document vectors/norms are insertion-ordered association
lists (Python dicts); the inverted index, a `defaultdict(set)`, is a total
function into duplicate-free lists with default `[]`; the vocabulary keeps
only the insertion-ordered term list (term ids are the positions, which no
verified property consults). -/

structure IndexerState where
  /-- `self.documents`: doc_id → processed tokens. -/
  documents : List (String × List String)
  /-- `self.vocabulary`, in insertion order (term → id with id = position). -/
  vocabulary : List String
  /-- `self.inverted_index`: term → set of doc_ids (default empty). -/
  inv : String → List String
  /-- `self.document_frequencies`, populated by `build_index`. -/
  documentFrequencies : List (String × Nat)
  /-- `self.tfidf_vectors`: doc_id → sparse {term: tfidf}. -/
  tfidfVectors : List (String × List (String × ℝ))
  /-- `self.document_norms`: doc_id → L2 norm. -/
  documentNorms : List (String × ℝ)
  /-- `self.total_documents`. -/
  totalDocuments : Nat

/-- A fresh `TFIDFIndexer`. -/
def initIndexer : IndexerState :=
  { documents := [], vocabulary := [], inv := fun _ => [],
    documentFrequencies := [], tfidfVectors := [], documentNorms := [],
    totalDocuments := 0 }

/-- `d[k] = v` on a Python dict: overwrite in place, or append a new key. -/
def upsert {β : Type} (l : List (String × β)) (k : String) (v : β) : List (String × β) :=
  match l with
  | [] => [(k, v)]
  | (k', v') :: rest => if k' = k then (k, v) :: rest else (k', v') :: upsert rest k v

/-- `set.add`: append the element unless present. -/
def setAdd (l : List String) (d : String) : List String :=
  if d ∈ l then l else l ++ [d]

/-- The body of `add_documents`'s loop for one `(doc_id, text)` item:
tokenize, store the token list, and for each distinct token extend the
vocabulary (if new) and the term's inverted-index entry. -/
def addOne (s : IndexerState) (docId : String) (text : String) : IndexerState :=
  let tokens := preprocessDefault text
  let uniqueTerms := tokens.dedup
  { s with
    documents := upsert s.documents docId tokens
    vocabulary := uniqueTerms.foldl (fun v t => if t ∈ v then v else v ++ [t]) s.vocabulary
    inv := uniqueTerms.foldl
      (fun f t => fun t' => if t' = t then setAdd (f t) docId else f t') s.inv }

/-- `TFIDFIndexer.add_documents`: process every item of the batch, then set
`total_documents = len(self.documents)`. -/
def addDocuments (s : IndexerState) (batch : List (String × String)) : IndexerState :=
  let s' := batch.foldl (fun s p => addOne s p.1 p.2) s
  { s' with totalDocuments := s'.documents.length }

/-- Ingest a sequence of `add_documents` batches into a fresh indexer. -/
def ingest (batches : List (List (String × String))) : IndexerState :=
  batches.foldl addDocuments initIndexer

/-- Sum of the squares of a sparse vector's values
(`sum(score**2 for score in vector.values())`). -/
def sumSq (v : List (String × ℝ)) : ℝ :=
  (v.map (fun p => p.2 ^ 2)).sum

/-- The TF-IDF vector `build_index` computes for one document:
`Counter(tokens)` iterated in first-occurrence order, `tf = count /
doc_length`, `idf = ln(total_documents / df[term])`.  `df` is the lookup
into `document_frequencies` just recomputed from the inverted index
(`0` stands for an impossible `KeyError`: every stored token is in the
vocabulary, see `stored_token_mem_vocabulary`). -/
noncomputable def tfidfVector (n : Nat) (dfs : List (String × Nat))
    (tokens : List String) : List (String × ℝ) :=
  tokens.dedup.map (fun t =>
    (t, ((tokens.count t : ℝ) / (tokens.length : ℝ)) *
        Real.log ((n : ℝ) / (((dfs.lookup t).getD 0 : ℕ) : ℝ))))

/-- `TFIDFIndexer.build_index`: recompute `document_frequencies` from the
inverted index, then rebuild every document's TF-IDF vector and L2 norm. -/
noncomputable def buildIndex (s : IndexerState) : IndexerState :=
  let dfs := s.vocabulary.map (fun t => (t, (s.inv t).length))
  { s with
    documentFrequencies := dfs
    tfidfVectors := s.documents.map (fun p => (p.1, tfidfVector s.totalDocuments dfs p.2))
    documentNorms := s.documents.map (fun p =>
      (p.1, Real.sqrt (sumSq (tfidfVector s.totalDocuments dfs p.2)))) }

/-- `TFIDFIndexer.get_candidate_documents`: the union (as a set, built in
iteration order) of the inverted-index entries of the query terms.  A term
absent from the inverted index contributes its default empty entry. -/
def getCandidateDocuments (s : IndexerState) (queryTerms : List String) : List String :=
  queryTerms.foldl (fun cands t => (s.inv t).foldl setAdd cands) []

/-- `TFIDFIndexer.get_query_vector`: tf over the query's own length, idf
from `document_frequencies` as of the last build.  A term missing from the
vocabulary is dropped; a vocabulary term missing from
`document_frequencies` (vocabulary grown after the last build) raises
`KeyError`, modelled as `Except.error`. -/
noncomputable def queryVectorEntries (s : IndexerState) (queryTerms : List String) :
    List String → Except String (List (String × ℝ))
  | [] => .ok []
  | t :: rest =>
    match s.documentFrequencies.lookup t with
    | some df =>
      match queryVectorEntries s queryTerms rest with
      | .ok l => .ok ((t, ((queryTerms.count t : ℝ) / (queryTerms.length : ℝ)) *
          Real.log ((s.totalDocuments : ℝ) / (df : ℝ))) :: l)
      | .error e => .error e
    | none => .error ("KeyError: " ++ t)

noncomputable def getQueryVector (s : IndexerState) (queryTerms : List String) :
    Except String (List (String × ℝ)) :=
  if queryTerms.isEmpty then .ok []
  else
    queryVectorEntries s queryTerms
      (queryTerms.dedup.filter (fun t => s.vocabulary.contains t))

end Questify

namespace Questify

/-- The `query_info` dictionary a search result carries: absent
(`rank_results` alone sets none), `{'error': ...}`, `{'message': ...}`, or
`QueryProcessor.get_query_info`'s statistics dictionary. -/
inductive QueryInfo where
  | none
  | err (message : String)
  | msg (message : String)
  | stats (termCount uniqueTerms : Nat) (terms : List String) (isValid : Bool)
deriving DecidableEq

/-! ## Cosine similarity (`core/similarity.py`) -/

/-- The dot-product loop of `calculate_similarity`: for each query term
present in the document vector, add `query_score * doc_score`. -/
noncomputable def dotProduct (qv dv : List (String × ℝ)) : ℝ :=
  (qv.map (fun p => match dv.lookup p.1 with
    | some y => p.2 * y
    | none => 0)).sum

/-- `CosineSimilarityCalculator.calculate_similarity`.  Python's
`not query_vector` / `not document_vector` tests are emptiness tests on the
dicts. -/
noncomputable def calculateSimilarity (qv dv : List (String × ℝ)) (documentNorm : ℝ) : ℝ :=
  if qv = [] ∨ dv = [] ∨ documentNorm = 0 then 0
  else
    let dot := dotProduct qv dv
    if dot = 0 then 0
    else
      let queryNorm := Real.sqrt (sumSq qv)
      if queryNorm = 0 then 0
      else dot / (queryNorm * documentNorm)

/-- `CosineSimilarityCalculator.batch_calculate_similarities`: score every
candidate document, keeping only strictly positive scores; a doc_id absent
from `document_norms` gets norm `0.0` (`dict.get(doc_id, 0.0)`). -/
noncomputable def batchCalculateSimilarities (qv : List (String × ℝ))
    (documentVectors : List (String × List (String × ℝ)))
    (documentNorms : List (String × ℝ)) : List (String × ℝ) :=
  (documentVectors.map (fun p =>
      (p.1, calculateSimilarity qv p.2 ((documentNorms.lookup p.1).getD 0)))).filter
    (fun p => decide (0 < p.2))

/-! ## Result ranker (`core/ranker.py`) -/

/-- One formatted result entry of `rank_results`: doc_id, the similarity
rounded to 4 decimals (`round(score, 4)`; Python rounds exact halves to
even, `round` here rounds them up — no verified property touches an exact
half), the 1-based rank, and content/preview when a document store is
supplied and the content is non-empty. -/
structure RankedEntry where
  docId : String
  similarityScore : ℝ
  rank : Nat
  content : Option String
  preview : Option String

/-- `round(x, 4)`. -/
noncomputable def round4 (x : ℝ) : ℝ :=
  (round (x * 10000) : ℤ) / 10000

/-- `ResultRanker._create_preview` with the default `max_length = 200`:
cut at 200 characters, back up to the last space when it lies past 80% of
the limit, and append an ellipsis. -/
def createPreview (content : String) : String :=
  if content.data.isEmpty then ""
  else if content.data.length ≤ 200 then content
  else
    let pre := content.data.take 200
    let lastSpace := (((pre.enum.filter (fun p => p.2 == ' ')).map Prod.fst).max?).getD 0
    if 160 < lastSpace then String.mk (pre.take lastSpace) ++ "..."
    else String.mk pre ++ "..."

/-- The formatting loop of `rank_results`: each appended entry gets
`rank = len(formatted_results) + 1`, i.e. ranks count up from the given
start. -/
noncomputable def formatEntries (store : Option (List (String × String))) :
    Nat → List (String × ℝ) → List RankedEntry
  | _, [] => []
  | r, (d, score) :: rest =>
    let content := match store with
      | some st => match st.lookup d with
        | some c => if c.data.isEmpty then none else some c
        | none => none
      | none => none
    { docId := d, similarityScore := round4 score, rank := r,
      content := content, preview := content.map createPreview } ::
      formatEntries store (r + 1) rest

/-- The threshold filter of `rank_results` (inclusive). -/
noncomputable def filterByThreshold (minScore : ℝ) (sims : List (String × ℝ)) :
    List (String × ℝ) :=
  sims.filter (fun p => decide (minScore ≤ p.2))

/-- `sorted(..., key=lambda x: x[1], reverse=True)`: stable sort by score
descending. -/
noncomputable def sortByScoreDesc (sims : List (String × ℝ)) : List (String × ℝ) :=
  sims.mergeSort (fun a b => decide (b.2 ≤ a.2))

/-- The dictionary `rank_results` returns, plus the fields `search`
attaches afterwards (`query_info`, `total_candidates`; wall-clock
`search_time` is not modelled).  Early returns of `search` carry no
`total_candidates` key, hence the `Option`. -/
structure SearchOutput where
  results : List RankedEntry
  totalResults : Nat
  totalCandidates : Option Nat
  queryInfo : QueryInfo

/-- `ResultRanker.rank_results`: filter by the inclusive threshold, sort
by score descending, truncate to `max_results`, and format with 1-based
ranks. -/
noncomputable def rankResults (minScore : ℝ) (maxResults : Nat)
    (sims : List (String × ℝ)) (store : Option (List (String × String))) : SearchOutput :=
  let filtered := filterByThreshold minScore sims
  let sorted := sortByScoreDesc filtered
  let top := sorted.take maxResults
  let formatted := formatEntries store 1 top
  { results := formatted, totalResults := formatted.length,
    totalCandidates := some sims.length, queryInfo := .none }

end Questify

namespace Questify

/-! ## Engine facade (`main/main.py`)

`QuestifySearchEngine` holds a `DocumentStore` (embedded as its in-memory
`documents` dict; file persistence is outside the verified core) and the
indexer, with the default configuration `max_results = 10`,
`min_similarity_score = 0.01`. -/

def MAX_RESULTS : Nat := 10

noncomputable def MIN_SIMILARITY_SCORE : ℝ := 1 / 100

structure EngineState where
  /-- `DocumentStore.documents`: doc_id → raw content. -/
  store : List (String × String)
  indexer : IndexerState

def initEngine : EngineState :=
  { store := [], indexer := initIndexer }

/-- `QuestifySearchEngine.add_documents`: add every item to the document
store, then hand the whole batch to the indexer. -/
def engineAddDocuments (e : EngineState) (batch : List (String × String)) : EngineState :=
  { store := batch.foldl (fun st p => upsert st p.1 p.2) e.store
    indexer := addDocuments e.indexer batch }

/-- `QuestifySearchEngine.build_index` (the timing print is not modelled). -/
noncomputable def engineBuildIndex (e : EngineState) : EngineState :=
  { e with indexer := buildIndex e.indexer }

/-- Add batches one `add_documents` call at a time, then build: the normal
way a corpus becomes searchable. -/
noncomputable def engineOfBatches (batches : List (List (String × String))) : EngineState :=
  engineBuildIndex (batches.foldl engineAddDocuments initEngine)

/-- `dict.__delitem__` on an association list with unique keys. -/
def removeKey {β : Type} (l : List (String × β)) (k : String) : List (String × β) :=
  l.filter (fun p => !(p.1 == k))

/-- `QuestifySearchEngine.remove_document`: delete from the store (the
store returns `False` when the id is unknown), then reinitialize the
indexer, re-add the remaining corpus and rebuild.  The fresh indexer stays
unbuilt when the remaining corpus is empty (`if all_documents:`). -/
noncomputable def engineRemoveDocument (e : EngineState) (docId : String) :
    Bool × EngineState :=
  if (e.store.lookup docId).isSome then
    let store' := removeKey e.store docId
    let indexer' :=
      if store'.isEmpty then initIndexer
      else buildIndex (addDocuments initIndexer store')
    (true, { store := store', indexer := indexer' })
  else
    (false, e)

/-- Look every key of `ks` up in the dict `m`, `KeyError` on a miss: the
dict comprehensions `{doc_id: self.indexer.tfidf_vectors[doc_id] ...}` of
`search`. -/
def lookupAll {β : Type} (m : List (String × β)) :
    List String → Except String (List (String × β))
  | [] => .ok []
  | d :: rest =>
    match m.lookup d with
    | some v =>
      match lookupAll m rest with
      | .ok l => .ok ((d, v) :: l)
      | .error e => .error e
    | Option.none => .error ("KeyError: " ++ d)

/-- An empty result set with an `{'error': ...}` or `{'message': ...}`
payload (the early returns of `search`). -/
def emptyOutput (info : QueryInfo) : SearchOutput :=
  { results := [], totalResults := 0, totalCandidates := Option.none, queryInfo := info }

/-- `QueryProcessor.get_query_info`. -/
def getQueryInfo (terms : List String) : QueryInfo :=
  .stats terms.length terms.dedup.length terms (validateQuery terms)

/-- The body of `QuestifySearchEngine.search` inside the `try`: an
`Except.error` stands for an uncaught Python exception (the `KeyError` of
an unbuilt index). -/
noncomputable def searchCore (e : EngineState) (query : String) :
    Except String SearchOutput :=
  let terms := processQuery query
  if !validateQuery terms then
    .ok (emptyOutput (.err "Invalid or empty query"))
  else
    match getQueryVector e.indexer terms with
    | .error m => .error m
    | .ok qv =>
      if qv.isEmpty then
        .ok (emptyOutput (.err "No matching terms found in vocabulary"))
      else
        let cands := getCandidateDocuments e.indexer terms
        if cands.isEmpty then
          .ok (emptyOutput (.msg "No documents contain the query terms"))
        else
          match lookupAll e.indexer.tfidfVectors cands with
          | .error m => .error m
          | .ok candVectors =>
            match lookupAll e.indexer.documentNorms cands with
            | .error m => .error m
            | .ok candNorms =>
              let sims := batchCalculateSimilarities qv candVectors candNorms
              let ranked := rankResults MIN_SIMILARITY_SCORE MAX_RESULTS sims (some e.store)
              .ok { ranked with
                      queryInfo := getQueryInfo terms
                      totalCandidates := some cands.length }

/-- `QuestifySearchEngine.search`: the `try/except` boundary turns any
internal exception into a structured `'Search error: ...'` payload with an
empty result set. -/
noncomputable def search (e : EngineState) (query : String) : SearchOutput :=
  match searchCore e query with
  | .ok r => r
  | .error m => emptyOutput (.err ("Search error: " ++ m))

end Questify

namespace Questify

/-! ## Association-list and fold lemmas -/

theorem lookup_upsert_self {β : Type} (l : List (String × β)) (k : String) (v : β) :
    (upsert l k v).lookup k = some v := by
  induction l with
  | nil => simp [upsert]
  | cons p rest ih =>
    obtain ⟨k', v'⟩ := p
    by_cases h : k' = k
    · simp [upsert, h]
    · simp [upsert, h, List.lookup_cons, beq_false_of_ne (Ne.symm h), ih]

theorem lookup_upsert_ne {β : Type} (l : List (String × β)) (k k' : String) (v : β)
    (h : k' ≠ k) : (upsert l k v).lookup k' = l.lookup k' := by
  induction l with
  | nil => simp [upsert, List.lookup_cons, beq_false_of_ne h]
  | cons p rest ih =>
    obtain ⟨k₀, v₀⟩ := p
    by_cases h0 : k₀ = k
    · subst h0
      simp [upsert, List.lookup_cons, beq_false_of_ne h]
    · simp only [upsert, if_neg h0, List.lookup_cons]
      cases hbeq : (k' == k₀) <;> simp [ih]

theorem keys_upsert {β : Type} (l : List (String × β)) (k : String) (v : β) :
    (upsert l k v).map Prod.fst =
      if k ∈ l.map Prod.fst then l.map Prod.fst else l.map Prod.fst ++ [k] := by
  induction l with
  | nil => simp [upsert]
  | cons p rest ih =>
    obtain ⟨k', v'⟩ := p
    by_cases h : k' = k
    · simp [upsert, h]
    · simp only [upsert, if_neg h, List.map_cons, List.mem_cons, ih]
      by_cases hk : k ∈ rest.map Prod.fst
      · simp [hk, Ne.symm h]
      · simp [hk, Ne.symm h]

theorem mem_keys_upsert {β : Type} (l : List (String × β)) (k a : String) (v : β) :
    a ∈ (upsert l k v).map Prod.fst ↔ a ∈ l.map Prod.fst ∨ a = k := by
  rw [keys_upsert]
  by_cases h : k ∈ l.map Prod.fst
  · simp only [if_pos h]
    constructor
    · exact Or.inl
    · rintro (ha | rfl) <;> [exact ha; exact h]
  · simp [if_neg h]

theorem nodup_keys_upsert {β : Type} (l : List (String × β)) (k : String) (v : β)
    (h : (l.map Prod.fst).Nodup) : ((upsert l k v).map Prod.fst).Nodup := by
  rw [keys_upsert]
  by_cases hk : k ∈ l.map Prod.fst
  · simpa [if_pos hk]
  · rw [if_neg hk]
    refine h.append (List.nodup_singleton k) ?_
    intro x hx hxk
    rw [List.mem_singleton] at hxk
    exact hk (hxk ▸ hx)

theorem lookup_map_keyed {β γ : Type} (l : List (String × β)) (G : String → β → γ)
    (k : String) :
    (l.map (fun p => (p.1, G p.1 p.2))).lookup k = (l.lookup k).map (G k) := by
  induction l with
  | nil => rfl
  | cons p rest ih =>
    obtain ⟨k', v'⟩ := p
    simp only [List.map_cons, List.lookup_cons]
    cases hbeq : (k == k')
    · simpa [hbeq] using ih
    · have : k = k' := by simpa using hbeq
      subst this
      simp

theorem lookup_keyed_of_mem {γ : Type} (l : List String) (f : String → γ) (t : String)
    (h : t ∈ l) : (l.map (fun x => (x, f x))).lookup t = some (f t) := by
  induction l with
  | nil => cases h
  | cons x rest ih =>
    rcases List.mem_cons.mp h with rfl | hmem
    · simp
    · simp only [List.map_cons, List.lookup_cons]
      cases hbeq : (t == x)
      · simpa [hbeq] using ih hmem
      · have : t = x := by simpa using hbeq
        subst this
        simp

theorem lookup_isSome_iff_mem_keys {β : Type} (l : List (String × β)) (k : String) :
    (l.lookup k).isSome ↔ k ∈ l.map Prod.fst := by
  rw [List.lookup_isSome_iff]
  constructor
  · rintro ⟨p, hp, hk⟩
    exact List.mem_map.mpr ⟨p, hp, ((by simpa using hk : k = p.1)).symm⟩
  · intro h
    obtain ⟨p, hp, rfl⟩ := List.mem_map.mp h
    exact ⟨p, hp, by simp⟩

theorem mem_setAdd (l : List String) (d x : String) :
    x ∈ setAdd l d ↔ x ∈ l ∨ x = d := by
  unfold setAdd
  by_cases h : d ∈ l
  · simp only [if_pos h]
    constructor
    · exact Or.inl
    · rintro (hx | rfl) <;> [exact hx; exact h]
  · simp [if_neg h]

theorem mem_foldl_setAdd (l : List String) (acc : List String) (x : String) :
    x ∈ l.foldl setAdd acc ↔ x ∈ acc ∨ x ∈ l := by
  induction l generalizing acc with
  | nil => simp
  | cons a rest ih =>
    simp only [List.foldl_cons, ih, mem_setAdd, List.mem_cons]
    tauto

theorem mem_getCandidateDocuments (s : IndexerState) (terms : List String) (d : String) :
    d ∈ getCandidateDocuments s terms ↔ ∃ t ∈ terms, d ∈ s.inv t := by
  unfold getCandidateDocuments
  suffices h : ∀ acc, d ∈ terms.foldl (fun cands t => (s.inv t).foldl setAdd cands) acc ↔
      d ∈ acc ∨ ∃ t ∈ terms, d ∈ s.inv t by
    simpa using h []
  induction terms with
  | nil => simp
  | cons t rest ih =>
    intro acc
    simp only [List.foldl_cons, ih, mem_foldl_setAdd, List.mem_cons]
    constructor
    · rintro (((h | h) | h))
      · exact Or.inl h
      · exact Or.inr ⟨t, Or.inl rfl, h⟩
      · obtain ⟨t', ht', hd⟩ := h
        exact Or.inr ⟨t', Or.inr ht', hd⟩
    · rintro (h | ⟨t', (rfl | ht'), hd⟩)
      · exact Or.inl (Or.inl h)
      · exact Or.inl (Or.inr hd)
      · exact Or.inr ⟨t', ht', hd⟩

theorem mem_foldl_vocabAdd (l : List String) (v0 : List String) (x : String) :
    x ∈ l.foldl (fun v t => if t ∈ v then v else v ++ [t]) v0 ↔ x ∈ v0 ∨ x ∈ l := by
  induction l generalizing v0 with
  | nil => simp
  | cons a rest ih =>
    simp only [List.foldl_cons, ih, List.mem_cons]
    by_cases h : a ∈ v0
    · constructor
      · rintro (hx | hx)
        · exact Or.inl (by simpa [if_pos h] using hx)
        · exact Or.inr (Or.inr hx)
      · rintro (hx | rfl | hx)
        · exact Or.inl (by simpa [if_pos h])
        · exact Or.inl (by simpa [if_pos h])
        · exact Or.inr hx
    · simp only [if_neg h, List.mem_append, List.mem_singleton]
      tauto

theorem mem_foldl_invAdd (terms : List String) (f0 : String → List String)
    (docId : String) (t d : String) :
    d ∈ (terms.foldl
        (fun f u => fun t' => if t' = u then setAdd (f u) docId else f t') f0) t ↔
      d ∈ f0 t ∨ (d = docId ∧ t ∈ terms) := by
  induction terms generalizing f0 with
  | nil => simp
  | cons u rest ih =>
    simp only [List.foldl_cons, ih, List.mem_cons]
    by_cases h : t = u
    · subst h
      simp only [if_pos rfl, mem_setAdd]
      simp only [eq_self_iff_true, if_true, mem_setAdd]
      tauto
    · simp only [if_neg h]
      constructor
      · rintro (hd | ⟨rfl, ht⟩)
        · exact Or.inl hd
        · exact Or.inr ⟨rfl, Or.inr ht⟩
      · rintro (hd | ⟨rfl, (heq | ht)⟩)
        · exact Or.inl hd
        · exact absurd heq h
        · exact Or.inr ⟨rfl, ht⟩

end Questify

namespace Questify

/-! ## Invariants of reachable indexer states -/

/-- Structural invariants every state reachable by `add_documents` calls
enjoys: document keys are unique (it is a dict), the inverted index only
mentions ingested doc_ids, and every stored token is in the vocabulary. -/
structure IndexerInv (s : IndexerState) : Prop where
  nodupKeys : (s.documents.map Prod.fst).Nodup
  invSub : ∀ t d, d ∈ s.inv t → d ∈ s.documents.map Prod.fst
  tokensVocab : ∀ d toks, s.documents.lookup d = some toks → ∀ t ∈ toks, t ∈ s.vocabulary

theorem addOne_documents (s : IndexerState) (docId text : String) :
    (addOne s docId text).documents = upsert s.documents docId (preprocessDefault text) := rfl

theorem mem_addOne_inv (s : IndexerState) (docId text : String) (t d : String) :
    d ∈ (addOne s docId text).inv t ↔
      d ∈ s.inv t ∨ (d = docId ∧ t ∈ preprocessDefault text) := by
  show d ∈ ((preprocessDefault text).dedup.foldl _ s.inv) t ↔ _
  rw [mem_foldl_invAdd]
  simp [List.mem_dedup]

theorem mem_addOne_vocabulary (s : IndexerState) (docId text : String) (t : String) :
    t ∈ (addOne s docId text).vocabulary ↔
      t ∈ s.vocabulary ∨ t ∈ preprocessDefault text := by
  show t ∈ (preprocessDefault text).dedup.foldl _ s.vocabulary ↔ _
  rw [mem_foldl_vocabAdd]
  simp [List.mem_dedup]

theorem indexerInv_addOne (s : IndexerState) (docId text : String)
    (h : IndexerInv s) : IndexerInv (addOne s docId text) := by
  constructor
  · rw [addOne_documents]
    exact nodup_keys_upsert _ _ _ h.nodupKeys
  · intro t d hd
    rw [mem_addOne_inv] at hd
    rw [addOne_documents, mem_keys_upsert]
    rcases hd with hd | ⟨rfl, _⟩
    · exact Or.inl (h.invSub t d hd)
    · exact Or.inr rfl
  · intro d toks hlook t ht
    rw [addOne_documents] at hlook
    rw [mem_addOne_vocabulary]
    by_cases hd : d = docId
    · subst hd
      rw [lookup_upsert_self] at hlook
      cases hlook
      exact Or.inr ht
    · rw [lookup_upsert_ne _ _ _ _ hd] at hlook
      exact Or.inl (h.tokensVocab d toks hlook t ht)

theorem foldl_addOne_fields (batch : List (String × String)) (s : IndexerState) :
    (addDocuments s batch).documents =
        (batch.foldl (fun s p => addOne s p.1 p.2) s).documents ∧
      (addDocuments s batch).inv = (batch.foldl (fun s p => addOne s p.1 p.2) s).inv ∧
      (addDocuments s batch).vocabulary =
        (batch.foldl (fun s p => addOne s p.1 p.2) s).vocabulary := by
  exact ⟨rfl, rfl, rfl⟩

theorem indexerInv_foldl_addOne (batch : List (String × String)) (s : IndexerState)
    (h : IndexerInv s) : IndexerInv (batch.foldl (fun s p => addOne s p.1 p.2) s) := by
  induction batch generalizing s with
  | nil => exact h
  | cons p rest ih => exact ih _ (indexerInv_addOne s p.1 p.2 h)

theorem indexerInv_addDocuments (s : IndexerState) (batch : List (String × String))
    (h : IndexerInv s) : IndexerInv (addDocuments s batch) := by
  have h' := indexerInv_foldl_addOne batch s h
  exact ⟨h'.nodupKeys, h'.invSub, h'.tokensVocab⟩

theorem indexerInv_init : IndexerInv initIndexer := by
  refine ⟨List.nodup_nil, ?_, ?_⟩
  · intro t d hd
    simp [initIndexer] at hd
  · intro d toks hlook
    simp [initIndexer] at hlook

theorem indexerInv_ingest (batches : List (List (String × String))) :
    IndexerInv (ingest batches) := by
  unfold ingest
  induction batches using List.reverseRecOn with
  | nil => exact indexerInv_init
  | append_singleton bs b ih =>
    rw [List.foldl_append]
    exact indexerInv_addDocuments _ b ih

/-- `total_documents` always equals `len(self.documents)` right after an
`add_documents` call (and `build_index` does not touch either field). -/
theorem totalDocuments_addDocuments (s : IndexerState) (batch : List (String × String)) :
    (addDocuments s batch).totalDocuments = (addDocuments s batch).documents.length := rfl

theorem totalDocuments_ingest (batches : List (List (String × String))) :
    (ingest batches).totalDocuments = (ingest batches).documents.length := by
  unfold ingest
  induction batches using List.reverseRecOn with
  | nil => rfl
  | append_singleton bs b _ =>
    rw [List.foldl_append]
    exact totalDocuments_addDocuments _ b

/-! ## The inverted-index membership relation

Without re-ingestion the inverted index is exactly "term occurs in the
stored token sequence"; a re-ingested document leaves stale entries behind
(`add_documents` never removes a doc_id from an entry), so the relation
below holds only for ingestion sequences whose doc_ids are pairwise
distinct. -/

/-- The claimed invariant: doc_id `d` appears under term `t` iff `t`
occurs in `d`'s currently stored token sequence. -/
def InvertedIndexExact (s : IndexerState) : Prop :=
  ∀ t d, d ∈ s.inv t ↔ ∃ toks, s.documents.lookup d = some toks ∧ t ∈ toks

theorem lookup_eq_none_of_not_mem_keys {β : Type} (l : List (String × β)) (k : String)
    (h : k ∉ l.map Prod.fst) : l.lookup k = none := by
  cases hl : l.lookup k with
  | none => rfl
  | some v =>
    exact absurd ((lookup_isSome_iff_mem_keys l k).mp (by simp [hl])) h

theorem invertedIndexExact_addOne (s : IndexerState) (docId text : String)
    (h : InvertedIndexExact s) (hfresh : docId ∉ s.documents.map Prod.fst) :
    InvertedIndexExact (addOne s docId text) := by
  intro t d
  rw [mem_addOne_inv, addOne_documents]
  by_cases hd : d = docId
  · subst hd
    rw [lookup_upsert_self]
    have hnone : s.documents.lookup d = none := lookup_eq_none_of_not_mem_keys _ _ hfresh
    constructor
    · rintro (hold | ⟨_, ht⟩)
      · obtain ⟨toks, hlook, _⟩ := (h t d).mp hold
        rw [hnone] at hlook
        cases hlook
      · exact ⟨_, rfl, ht⟩
    · rintro ⟨toks, htoks, ht⟩
      cases htoks
      exact Or.inr ⟨rfl, ht⟩
  · rw [lookup_upsert_ne _ _ _ _ hd]
    constructor
    · rintro (hold | ⟨rfl, _⟩)
      · exact (h t d).mp hold
      · exact absurd rfl hd
    · intro hex
      exact Or.inl ((h t d).mpr hex)

theorem mem_keys_foldl_addOne (pairs : List (String × String)) (s : IndexerState)
    (x : String) :
    x ∈ (pairs.foldl (fun s p => addOne s p.1 p.2) s).documents.map Prod.fst ↔
      x ∈ s.documents.map Prod.fst ∨ x ∈ pairs.map Prod.fst := by
  induction pairs generalizing s with
  | nil => simp
  | cons p rest ih =>
    simp only [List.foldl_cons, ih, addOne_documents, mem_keys_upsert, List.map_cons,
      List.mem_cons]
    tauto

theorem invertedIndexExact_foldl_addOne (pairs : List (String × String))
    (s : IndexerState) (h : InvertedIndexExact s)
    (hnodup : (pairs.map Prod.fst).Nodup)
    (hdisj : ∀ p ∈ pairs, p.1 ∉ s.documents.map Prod.fst) :
    InvertedIndexExact (pairs.foldl (fun s p => addOne s p.1 p.2) s) := by
  induction pairs generalizing s with
  | nil => exact h
  | cons p rest ih =>
    simp only [List.map_cons, List.nodup_cons] at hnodup
    refine ih (addOne s p.1 p.2)
      (invertedIndexExact_addOne s p.1 p.2 h (hdisj p (List.mem_cons_self p rest)))
      hnodup.2 ?_
    intro q hq hmem
    rw [addOne_documents, mem_keys_upsert] at hmem
    rcases hmem with hmem | hmem
    · exact hdisj q (List.mem_cons_of_mem p hq) hmem
    · exact hnodup.1 (hmem ▸ List.mem_map_of_mem Prod.fst hq)

theorem invertedIndexExact_addDocuments (s : IndexerState)
    (batch : List (String × String)) (h : InvertedIndexExact s)
    (hnodup : (batch.map Prod.fst).Nodup)
    (hdisj : ∀ p ∈ batch, p.1 ∉ s.documents.map Prod.fst) :
    InvertedIndexExact (addDocuments s batch) := by
  intro t d
  exact invertedIndexExact_foldl_addOne batch s h hnodup hdisj t d

theorem invertedIndexExact_ingest_aux (batches : List (List (String × String)))
    (s : IndexerState) (h : InvertedIndexExact s)
    (hnodup : (batches.flatMap (fun b => b.map Prod.fst)).Nodup)
    (hdisj : ∀ b ∈ batches, ∀ p ∈ b, p.1 ∉ s.documents.map Prod.fst) :
    InvertedIndexExact (batches.foldl addDocuments s) := by
  induction batches generalizing s with
  | nil => exact h
  | cons b rest ih =>
    simp only [List.flatMap_cons, List.nodup_append] at hnodup
    obtain ⟨hb, hrest, hcross⟩ := hnodup
    refine ih (addDocuments s b)
      (invertedIndexExact_addDocuments s b h hb (hdisj b (List.mem_cons_self b rest))) hrest ?_
    intro b' hb' p hp hmem
    have : (addDocuments s b).documents = (b.foldl (fun s p => addOne s p.1 p.2) s).documents :=
      rfl
    rw [this, mem_keys_foldl_addOne] at hmem
    rcases hmem with hmem | hmem
    · exact hdisj b' (List.mem_cons_of_mem b hb') p hp hmem
    · exact hcross hmem (by
        exact List.mem_flatMap.mpr ⟨b', hb', List.mem_map_of_mem Prod.fst hp⟩)

/-- With pairwise-distinct doc_ids across a whole ingestion sequence, the
inverted index is exactly the occurs-in relation. -/
theorem invertedIndexExact_ingest (batches : List (List (String × String)))
    (hnodup : (batches.flatMap (fun b => b.map Prod.fst)).Nodup) :
    InvertedIndexExact (ingest batches) := by
  refine invertedIndexExact_ingest_aux batches initIndexer ?_ hnodup ?_
  · intro t d
    simp [initIndexer]
  · intro b _ p _ hmem
    simp [initIndexer] at hmem

end Questify

namespace Questify

/-! ## Similarity lemmas: the dot product against the L2 norms -/

theorem lookup_mem {β : Type} (l : List (String × β)) (k : String) (v : β)
    (h : l.lookup k = some v) : (k, v) ∈ l := by
  induction l with
  | nil => cases h
  | cons p rest ih =>
    obtain ⟨k', v'⟩ := p
    cases hbeq : (k == k')
    · rw [List.lookup_cons, hbeq] at h
      exact List.mem_cons_of_mem _ (ih h)
    · rw [List.lookup_cons, hbeq] at h
      cases h
      have : k = k' := by simpa using hbeq
      subst this
      exact List.mem_cons_self _ _

theorem getD_lookup_nonneg (dv : List (String × ℝ)) (hd : ∀ p ∈ dv, 0 ≤ p.2)
    (t : String) : 0 ≤ (dv.lookup t).getD 0 := by
  cases h : dv.lookup t with
  | none => simp
  | some y => simpa using hd (t, y) (lookup_mem dv t y h)

theorem dotProduct_eq_sum_getD (qv dv : List (String × ℝ)) :
    dotProduct qv dv = (qv.map (fun p => p.2 * ((dv.lookup p.1).getD 0))).sum := by
  unfold dotProduct
  congr 1
  apply List.map_congr_left
  intro p _
  cases h : dv.lookup p.1 <;> simp [h]

/-- A sum over a duplicate-free-keyed association list is the sum over its
key set of the looked-up values. -/
theorem assoc_sum_eq (F : String → ℝ → ℝ) (v : List (String × ℝ))
    (hk : (v.map Prod.fst).Nodup) :
    (v.map (fun p => F p.1 p.2)).sum =
      ∑ t ∈ (v.map Prod.fst).toFinset, F t ((v.lookup t).getD 0) := by
  induction v with
  | nil => simp
  | cons p rest ih =>
    obtain ⟨k, x⟩ := p
    simp only [List.map_cons, List.nodup_cons] at hk
    obtain ⟨hknot, hkrest⟩ := hk
    have hknotF : k ∉ (rest.map Prod.fst).toFinset := by
      simpa using hknot
    simp only [List.map_cons, List.sum_cons, List.toFinset_cons]
    rw [Finset.sum_insert hknotF]
    congr 1
    · simp
    · rw [ih hkrest]
      apply Finset.sum_congr rfl
      intro t ht
      have htne : (t == k) = false := by
        refine beq_false_of_ne ?_
        intro hEq
        exact hknot (by simpa [hEq] using ht)
      simp [List.lookup_cons, htne]

theorem sumSq_eq_sum (v : List (String × ℝ)) (hk : (v.map Prod.fst).Nodup) :
    sumSq v = ∑ t ∈ (v.map Prod.fst).toFinset, ((v.lookup t).getD 0) ^ 2 :=
  assoc_sum_eq (fun _ x => x ^ 2) v hk

theorem sumSq_nonneg (v : List (String × ℝ)) : 0 ≤ sumSq v := by
  apply List.sum_nonneg
  intro x hx
  obtain ⟨p, _, rfl⟩ := List.mem_map.mp hx
  positivity

/-- Cauchy–Schwarz for the overlap dot product: it is bounded by the
product of the two L2 norms. -/
theorem dotProduct_le_sqrt_mul_sqrt (qv dv : List (String × ℝ))
    (hqk : (qv.map Prod.fst).Nodup) (hdk : (dv.map Prod.fst).Nodup) :
    dotProduct qv dv ≤ Real.sqrt (sumSq qv) * Real.sqrt (sumSq dv) := by
  have hdot : dotProduct qv dv =
      ∑ t ∈ (qv.map Prod.fst).toFinset,
        ((qv.lookup t).getD 0) * ((dv.lookup t).getD 0) := by
    rw [dotProduct_eq_sum_getD]
    exact assoc_sum_eq (fun t x => x * ((dv.lookup t).getD 0)) qv hqk
  have hcs := Real.sum_mul_le_sqrt_mul_sqrt ((qv.map Prod.fst).toFinset)
    (fun t => (qv.lookup t).getD 0) (fun t => (dv.lookup t).getD 0)
  have hgsub : ∑ t ∈ (qv.map Prod.fst).toFinset, ((dv.lookup t).getD 0) ^ 2 ≤ sumSq dv := by
    rw [sumSq_eq_sum dv hdk]
    have hfilter : ∑ t ∈ (qv.map Prod.fst).toFinset, ((dv.lookup t).getD 0) ^ 2 =
        ∑ t ∈ (qv.map Prod.fst).toFinset.filter (fun t => t ∈ (dv.map Prod.fst).toFinset),
          ((dv.lookup t).getD 0) ^ 2 := by
      symm
      apply Finset.sum_filter_of_ne
      intro t _ hne
      by_contra hnot
      have : dv.lookup t = none :=
        lookup_eq_none_of_not_mem_keys dv t (by simpa using hnot)
      simp [this] at hne
    rw [hfilter]
    apply Finset.sum_le_sum_of_subset_of_nonneg
    · intro t ht
      exact (Finset.mem_filter.mp ht).2
    · intro t _ _
      positivity
  calc dotProduct qv dv
      ≤ Real.sqrt (∑ t ∈ (qv.map Prod.fst).toFinset, ((qv.lookup t).getD 0) ^ 2) *
        Real.sqrt (∑ t ∈ (qv.map Prod.fst).toFinset, ((dv.lookup t).getD 0) ^ 2) := by
        rw [hdot]; exact hcs
    _ ≤ Real.sqrt (sumSq qv) * Real.sqrt (sumSq dv) := by
        rw [← sumSq_eq_sum qv hqk]
        exact mul_le_mul_of_nonneg_left (Real.sqrt_le_sqrt hgsub) (Real.sqrt_nonneg _)

theorem dotProduct_nonneg (qv dv : List (String × ℝ))
    (hq : ∀ p ∈ qv, 0 ≤ p.2) (hd : ∀ p ∈ dv, 0 ≤ p.2) :
    0 ≤ dotProduct qv dv := by
  rw [dotProduct_eq_sum_getD]
  apply List.sum_nonneg
  intro x hx
  obtain ⟨p, hp, rfl⟩ := List.mem_map.mp hx
  exact mul_nonneg (hq p hp) (getD_lookup_nonneg dv hd p.1)

/-- A vanishing sum of squares forces every entry to vanish. -/
theorem sumSq_eq_zero_entries (v : List (String × ℝ)) (h : sumSq v = 0) :
    ∀ p ∈ v, p.2 = 0 := by
  induction v with
  | nil => simp
  | cons p rest ih =>
    have hsum : p.2 ^ 2 + sumSq rest = 0 := by simpa [sumSq] using h
    have h1 : 0 ≤ p.2 ^ 2 := sq_nonneg _
    have h2 : 0 ≤ sumSq rest := sumSq_nonneg rest
    have hp : p.2 ^ 2 = 0 := by linarith
    have hr : sumSq rest = 0 := by linarith
    intro q hq
    rcases List.mem_cons.mp hq with rfl | hq'
    · exact pow_eq_zero_iff (by norm_num : (2 : ℕ) ≠ 0) |>.mp hp
    · exact ih hr q hq'

/-- If the query vector's sum of squares vanishes (all entries zero), the
dot product vanishes with it. -/
theorem dotProduct_eq_zero_of_sumSq_eq_zero (qv dv : List (String × ℝ))
    (hzero : sumSq qv = 0) : dotProduct qv dv = 0 := by
  rw [dotProduct_eq_sum_getD]
  apply List.sum_eq_zero
  intro x hx
  obtain ⟨p, hp, rfl⟩ := List.mem_map.mp hx
  rw [sumSq_eq_zero_entries qv hzero p hp, zero_mul]

end Questify

namespace Questify

/-! ## Claim C3: bounds and zero cases of `calculate_similarity` -/

/-- **C3.** For query and document vectors with non-negative entries
(duplicate-free keys, as Python dicts have) and `document_norm` the L2
norm of the document vector, `calculate_similarity` returns a value in
`[0, 1]`, and returns `0` exactly when the query vector is empty, the
document vector is empty, `doc_norm` is `0`, or the dot product over the
common terms is `0`.  (It is a total function of its inputs: no branch can
raise.) -/
theorem calculate_similarity_bounds_and_zero_iff (qv dv : List (String × ℝ))
    (documentNorm : ℝ)
    (hq : ∀ p ∈ qv, 0 ≤ p.2) (hd : ∀ p ∈ dv, 0 ≤ p.2)
    (hqk : (qv.map Prod.fst).Nodup) (hdk : (dv.map Prod.fst).Nodup)
    (hnorm : documentNorm = Real.sqrt (sumSq dv)) :
    (0 ≤ calculateSimilarity qv dv documentNorm ∧
      calculateSimilarity qv dv documentNorm ≤ 1) ∧
    (calculateSimilarity qv dv documentNorm = 0 ↔
      qv = [] ∨ dv = [] ∨ documentNorm = 0 ∨ dotProduct qv dv = 0) := by
  unfold calculateSimilarity
  by_cases h1 : qv = [] ∨ dv = [] ∨ documentNorm = 0
  · rw [if_pos h1]
    exact ⟨⟨le_refl 0, zero_le_one⟩, ⟨fun _ => by tauto, fun _ => rfl⟩⟩
  · rw [if_neg h1]
    by_cases h2 : dotProduct qv dv = 0
    · simp only [h2, if_pos rfl]
      exact ⟨⟨le_refl 0, zero_le_one⟩, ⟨fun _ => by tauto, fun _ => rfl⟩⟩
    · simp only [if_neg h2]
      by_cases h3 : Real.sqrt (sumSq qv) = 0
      · exact absurd
          (dotProduct_eq_zero_of_sumSq_eq_zero qv dv
            ((Real.sqrt_eq_zero (sumSq_nonneg qv)).mp h3)) h2
      · simp only [if_neg h3]
        have hqn_pos : 0 < Real.sqrt (sumSq qv) :=
          lt_of_le_of_ne (Real.sqrt_nonneg _) (Ne.symm h3)
        have hdn_ne : documentNorm ≠ 0 := by tauto
        have hdn_pos : 0 < documentNorm := by
          rw [hnorm] at hdn_ne ⊢
          exact lt_of_le_of_ne (Real.sqrt_nonneg _) (Ne.symm hdn_ne)
        have hdot_pos : 0 < dotProduct qv dv :=
          lt_of_le_of_ne (dotProduct_nonneg qv dv hq hd) (Ne.symm h2)
        have hle : dotProduct qv dv ≤ Real.sqrt (sumSq qv) * documentNorm := by
          rw [hnorm]
          exact dotProduct_le_sqrt_mul_sqrt qv dv hqk hdk
        have hpos : 0 < dotProduct qv dv / (Real.sqrt (sumSq qv) * documentNorm) :=
          div_pos hdot_pos (mul_pos hqn_pos hdn_pos)
        refine ⟨⟨le_of_lt hpos, ?_⟩, ?_⟩
        · rw [div_le_one (mul_pos hqn_pos hdn_pos)]
          exact hle
        · constructor
          · intro h0
            exact absurd h0 (ne_of_gt hpos)
          · intro hr
            rcases hr with hr | hr | hr | hr
            · exact absurd (Or.inl hr) h1
            · exact absurd (Or.inr (Or.inl hr)) h1
            · exact absurd (Or.inr (Or.inr hr)) h1
            · exact absurd hr h2

/-- Witness for C3 at `qv = dv = {"a": 1}`, `document_norm = 1`. -/
theorem calculate_similarity_bounds_witness :
    (0 ≤ calculateSimilarity [("a", (1 : ℝ))] [("a", (1 : ℝ))] 1 ∧
      calculateSimilarity [("a", (1 : ℝ))] [("a", (1 : ℝ))] 1 ≤ 1) ∧
    (calculateSimilarity [("a", (1 : ℝ))] [("a", (1 : ℝ))] 1 = 0 ↔
      ([("a", (1 : ℝ))] : List (String × ℝ)) = [] ∨
        ([("a", (1 : ℝ))] : List (String × ℝ)) = [] ∨ (1 : ℝ) = 0 ∨
        dotProduct [("a", (1 : ℝ))] [("a", (1 : ℝ))] = 0) :=
  calculate_similarity_bounds_and_zero_iff [("a", (1 : ℝ))] [("a", (1 : ℝ))] 1
    (by rintro p hp; rcases List.mem_singleton.mp hp with rfl; norm_num)
    (by rintro p hp; rcases List.mem_singleton.mp hp with rfl; norm_num)
    (by simp) (by simp)
    (by rw [show sumSq [("a", (1 : ℝ))] = 1 by norm_num [sumSq], Real.sqrt_one])

end Questify

namespace Questify

/-! ## Claim C4: `rank_results` filters, sorts, truncates and ranks -/

theorem formatEntries_length (store : Option (List (String × String)))
    (r : Nat) (l : List (String × ℝ)) :
    (formatEntries store r l).length = l.length := by
  induction l generalizing r with
  | nil => rfl
  | cons p rest ih =>
    obtain ⟨d, score⟩ := p
    simp [formatEntries, ih]

theorem formatEntries_rank (store : Option (List (String × String)))
    (r : Nat) (l : List (String × ℝ)) (i : Nat)
    (h : i < (formatEntries store r l).length) :
    ((formatEntries store r l).get ⟨i, h⟩).rank = r + i := by
  induction l generalizing r i with
  | nil => simp [formatEntries_length] at h
  | cons p rest ih =>
    obtain ⟨d, score⟩ := p
    cases i with
    | zero => rfl
    | succ n =>
      have hn : n < (formatEntries store (r + 1) rest).length := by
        simpa [formatEntries, Nat.succ_lt_succ_iff] using h
      have := ih (r + 1) n hn
      simpa [formatEntries, Nat.add_assoc, Nat.add_comm 1 n] using this

theorem docId_mem_of_mem_formatEntries (store : Option (List (String × String)))
    (r : Nat) (l : List (String × ℝ)) (e : RankedEntry)
    (h : e ∈ formatEntries store r l) : e.docId ∈ l.map Prod.fst := by
  induction l generalizing r with
  | nil => cases h
  | cons p rest ih =>
    obtain ⟨d, score⟩ := p
    rcases List.mem_cons.mp h with rfl | h'
    · exact List.mem_cons_self _ _
    · exact List.mem_cons_of_mem _ (ih (r + 1) h')

theorem sortByScoreDesc_perm (l : List (String × ℝ)) :
    (sortByScoreDesc l).Perm l :=
  List.mergeSort_perm l _

theorem sortByScoreDesc_sorted (l : List (String × ℝ)) :
    (sortByScoreDesc l).Pairwise (fun a b => b.2 ≤ a.2) := by
  have h := @List.sorted_mergeSort (String × ℝ)
    (fun a b : String × ℝ => decide (b.2 ≤ a.2))
    (fun a b c hab hbc => by
      simp only [decide_eq_true_eq] at *
      exact le_trans hbc hab)
    (fun a b => by
      by_cases h : b.2 ≤ a.2
      · simp [h]
      · simp [le_of_not_le h])
    l
  exact h.imp (fun hab => of_decide_eq_true hab)

theorem mem_filterByThreshold (minScore : ℝ) (sims : List (String × ℝ))
    (e : String × ℝ) :
    e ∈ filterByThreshold minScore sims ↔ e ∈ sims ∧ minScore ≤ e.2 := by
  unfold filterByThreshold
  rw [List.mem_filter]
  simp

/-- **C4.** `rank_results` keeps exactly the entries meeting the inclusive
threshold (every dropped entry is strictly below it), sorts the kept
entries by score descending, truncates to at most `max_results`, and
assigns each surviving entry the 1-based rank equal to its output
position. -/
theorem rank_results_filter_sort_truncate_rank (minScore : ℝ) (maxResults : Nat)
    (sims : List (String × ℝ)) (store : Option (List (String × String))) :
    (∀ e, e ∈ filterByThreshold minScore sims ↔ e ∈ sims ∧ minScore ≤ e.2) ∧
    (sortByScoreDesc (filterByThreshold minScore sims)).Perm
      (filterByThreshold minScore sims) ∧
    (sortByScoreDesc (filterByThreshold minScore sims)).Pairwise (fun a b => b.2 ≤ a.2) ∧
    (rankResults minScore maxResults sims store).results =
      formatEntries store 1
        ((sortByScoreDesc (filterByThreshold minScore sims)).take maxResults) ∧
    (rankResults minScore maxResults sims store).results.length ≤ maxResults ∧
    (rankResults minScore maxResults sims store).results.length ≤
      (filterByThreshold minScore sims).length ∧
    (∀ i (h : i < (rankResults minScore maxResults sims store).results.length),
      ((rankResults minScore maxResults sims store).results.get ⟨i, h⟩).rank = i + 1) := by
  refine ⟨mem_filterByThreshold minScore sims, sortByScoreDesc_perm _,
    sortByScoreDesc_sorted _, rfl, ?_, ?_, ?_⟩
  · show (formatEntries store 1 _).length ≤ _
    rw [formatEntries_length, List.length_take]
    exact min_le_left _ _
  · show (formatEntries store 1 _).length ≤ _
    rw [formatEntries_length, List.length_take]
    refine le_trans (min_le_right _ _) ?_
    exact le_of_eq (sortByScoreDesc_perm _).length_eq
  · intro i h
    show ((formatEntries store 1 _).get ⟨i, h⟩).rank = i + 1
    rw [formatEntries_rank]
    exact Nat.add_comm 1 i

end Questify

namespace Questify

/-! ## Claims C5 and C10: the formulas `build_index` computes -/

theorem buildIndex_tfidfVectors_lookup (s : IndexerState) (d : String) :
    (buildIndex s).tfidfVectors.lookup d =
      (s.documents.lookup d).map
        (tfidfVector s.totalDocuments (s.vocabulary.map (fun t => (t, (s.inv t).length)))) := by
  show (s.documents.map (fun p => (p.1, tfidfVector s.totalDocuments _ p.2))).lookup d = _
  exact lookup_map_keyed s.documents
    (fun _ toks => tfidfVector s.totalDocuments _ toks) d

theorem buildIndex_documentNorms_lookup (s : IndexerState) (d : String) :
    (buildIndex s).documentNorms.lookup d =
      (s.documents.lookup d).map (fun toks =>
        Real.sqrt (sumSq (tfidfVector s.totalDocuments
          (s.vocabulary.map (fun t => (t, (s.inv t).length))) toks))) := by
  show (s.documents.map (fun p => (p.1, Real.sqrt (sumSq (tfidfVector s.totalDocuments _ p.2))))).lookup d = _
  exact lookup_map_keyed s.documents
    (fun _ toks => Real.sqrt (sumSq (tfidfVector s.totalDocuments _ toks))) d

/-- Every token of a stored document has a `document_frequencies` entry at
build time, equal to the size of its inverted-index entry (so the
`df[term]` lookups of `build_index` cannot raise). -/
theorem dfs_lookup_of_stored_token (batches : List (List (String × String)))
    (d : String) (toks : List String)
    (hlook : (ingest batches).documents.lookup d = some toks) (t : String) (ht : t ∈ toks) :
    (((ingest batches).vocabulary.map
        (fun t => (t, ((ingest batches).inv t).length))).lookup t).getD 0 =
      ((ingest batches).inv t).length := by
  have hvocab : t ∈ (ingest batches).vocabulary :=
    (indexerInv_ingest batches).tokensVocab d toks hlook t ht
  rw [lookup_keyed_of_mem _ _ t hvocab]
  rfl

/-- **C5.** After any ingestion sequence, `build_index` stores, for each
document and each term occurring in it, the entry
`tf * idf = (count / token_count) * ln(N / df)` with `N` the number of
ingested documents and `df` the size of the term's inverted-index entry at
build time; it stores the L2 norm `sqrt(Σ entry²)` of the vector.  (Being
a pure function of the ingested corpus, it is deterministic.) -/
theorem build_index_tfidf_formulas (batches : List (List (String × String)))
    (d : String) (toks : List String)
    (hlook : (ingest batches).documents.lookup d = some toks) :
    ((buildIndex (ingest batches)).tfidfVectors.lookup d =
      some (tfidfVector (ingest batches).totalDocuments
        ((ingest batches).vocabulary.map (fun t => (t, ((ingest batches).inv t).length)))
        toks)) ∧
    (∀ t ∈ toks,
      (tfidfVector (ingest batches).totalDocuments
          ((ingest batches).vocabulary.map (fun t => (t, ((ingest batches).inv t).length)))
          toks).lookup t =
        some (((toks.count t : ℝ) / (toks.length : ℝ)) *
          Real.log (((ingest batches).totalDocuments : ℝ) /
            (((ingest batches).inv t).length : ℝ)))) ∧
    ((buildIndex (ingest batches)).documentNorms.lookup d =
      some (Real.sqrt (sumSq (tfidfVector (ingest batches).totalDocuments
        ((ingest batches).vocabulary.map (fun t => (t, ((ingest batches).inv t).length)))
        toks)))) ∧
    (ingest batches).totalDocuments = (ingest batches).documents.length := by
  refine ⟨?_, ?_, ?_, totalDocuments_ingest batches⟩
  · rw [buildIndex_tfidfVectors_lookup, hlook]
    rfl
  · intro t ht
    unfold tfidfVector
    rw [lookup_keyed_of_mem _ _ t (List.mem_dedup.mpr ht)]
    rw [dfs_lookup_of_stored_token batches d toks hlook t ht]
  · rw [buildIndex_documentNorms_lookup, hlook]
    rfl

/-- Witness for C5: the one-document corpus `{"d1": "apple"}`. -/
theorem build_index_tfidf_formulas_witness :
    ((buildIndex (ingest [[("d1", "apple")]])).tfidfVectors.lookup "d1" =
      some (tfidfVector (ingest [[("d1", "apple")]]).totalDocuments
        ((ingest [[("d1", "apple")]]).vocabulary.map
          (fun t => (t, ((ingest [[("d1", "apple")]]).inv t).length)))
        ["apple"])) ∧
    (∀ t ∈ ["apple"],
      (tfidfVector (ingest [[("d1", "apple")]]).totalDocuments
          ((ingest [[("d1", "apple")]]).vocabulary.map
            (fun t => (t, ((ingest [[("d1", "apple")]]).inv t).length)))
          ["apple"]).lookup t =
        some (((["apple"].count t : ℝ) / ((["apple"].length : Nat) : ℝ)) *
          Real.log (((ingest [[("d1", "apple")]]).totalDocuments : ℝ) /
            (((ingest [[("d1", "apple")]]).inv t).length : ℝ)))) ∧
    ((buildIndex (ingest [[("d1", "apple")]])).documentNorms.lookup "d1" =
      some (Real.sqrt (sumSq (tfidfVector (ingest [[("d1", "apple")]]).totalDocuments
        ((ingest [[("d1", "apple")]]).vocabulary.map
          (fun t => (t, ((ingest [[("d1", "apple")]]).inv t).length)))
        ["apple"])))) ∧
    (ingest [[("d1", "apple")]]).totalDocuments =
      (ingest [[("d1", "apple")]]).documents.length :=
  build_index_tfidf_formulas [[("d1", "apple")]] "d1" ["apple"] (by decide)

/-- **C10.** A stored document whose token sequence is empty (all tokens
filtered away) gets the empty TF-IDF vector and norm `0.0`: the per-term
loop of `build_index` is vacuous, so the `tf` division by the zero token
count is never executed. -/
theorem build_index_empty_token_document (batches : List (List (String × String)))
    (d : String) (hlook : (ingest batches).documents.lookup d = some []) :
    (buildIndex (ingest batches)).tfidfVectors.lookup d = some [] ∧
    (buildIndex (ingest batches)).documentNorms.lookup d = some 0 := by
  constructor
  · rw [buildIndex_tfidfVectors_lookup, hlook]
    rfl
  · rw [buildIndex_documentNorms_lookup, hlook]
    show some (Real.sqrt (sumSq (tfidfVector _ _ []))) = some 0
    rw [show sumSq (tfidfVector (ingest batches).totalDocuments _ []) = 0 from rfl,
      Real.sqrt_zero]

/-- Witness for C10: `"a an is"` tokenizes to nothing (all tokens shorter
than the minimum length), and the document gets vector `{}` and norm 0. -/
theorem build_index_empty_token_document_witness :
    (buildIndex (ingest [[("d1", "a an is")]])).tfidfVectors.lookup "d1" = some [] ∧
    (buildIndex (ingest [[("d1", "a an is")]])).documentNorms.lookup "d1" = some 0 :=
  build_index_empty_token_document [[("d1", "a an is")]] "d1" (by decide)

end Questify

namespace Questify

/-! ## Claim C6: the inverted-index invariant under `add_documents` -/

/-- **C6 counterexample.** Re-ingesting `"d1"` with new text leaves the
stale entry `"d1" ∈ inverted_index["apple"]` although `"apple"` no longer
occurs in `"d1"`'s stored token sequence: the claimed invariant fails. -/
theorem inverted_index_invariant_fails_on_reingestion :
    "d1" ∈ (ingest [[("d1", "apple")], [("d1", "banana")]]).inv "apple" ∧
    (ingest [[("d1", "apple")], [("d1", "banana")]]).documents.lookup "d1" =
      some ["banana"] ∧
    ¬ InvertedIndexExact (ingest [[("d1", "apple")], [("d1", "banana")]]) := by
  refine ⟨by decide, by decide, ?_⟩
  intro h
  obtain ⟨toks, hlook, hmem⟩ := (h "apple" "d1").mp (by decide)
  rw [show (ingest [[("d1", "apple")], [("d1", "banana")]]).documents.lookup "d1" =
      some ["banana"] from by decide] at hlook
  cases hlook
  exact absurd hmem (by decide)

/-- **C6 (amended).** Under every sequence of `add_documents` calls in
which no doc_id is ingested twice, a document id appears in term `T`'s
inverted-index entry iff `T` occurs in that document's stored token
sequence.  (Re-ingestion of an existing doc_id keeps the old tokens'
entries, see `inverted_index_invariant_fails_on_reingestion`.) -/
theorem inverted_index_invariant_fresh_ids
    (batches : List (List (String × String)))
    (hnodup : (batches.flatMap (fun b => b.map Prod.fst)).Nodup) (t d : String) :
    d ∈ (ingest batches).inv t ↔
      ∃ toks, (ingest batches).documents.lookup d = some toks ∧ t ∈ toks :=
  invertedIndexExact_ingest batches hnodup t d

/-- Witness for C6 (amended) on a two-document corpus with distinct ids. -/
theorem inverted_index_invariant_fresh_ids_witness :
    (([[("d1", "apple")], [("d2", "banana")]].flatMap
        (fun b => b.map Prod.fst)).Nodup) ∧
    ("d1" ∈ (ingest [[("d1", "apple")], [("d2", "banana")]]).inv "apple" ↔
      ∃ toks, (ingest [[("d1", "apple")], [("d2", "banana")]]).documents.lookup "d1" =
        some toks ∧ "apple" ∈ toks) :=
  ⟨by decide, inverted_index_invariant_fresh_ids _ (by decide) "apple" "d1"⟩

/-! ## Claim C8: removal purges a document from all future searches -/

theorem buildIndex_inv (s : IndexerState) : (buildIndex s).inv = s.inv := rfl

theorem buildIndex_documents (s : IndexerState) :
    (buildIndex s).documents = s.documents := rfl

theorem not_mem_keys_removeKey {β : Type} (l : List (String × β)) (k : String) :
    k ∉ (removeKey l k).map Prod.fst := by
  intro h
  obtain ⟨p, hp, rfl⟩ := List.mem_map.mp h
  have := List.of_mem_filter hp
  simp at this

/-- The doc_ids `batch_calculate_similarities` emits come from the
document-vectors dict it was given. -/
theorem batchCalc_docIds (qv : List (String × ℝ))
    (cvs : List (String × List (String × ℝ))) (cns : List (String × ℝ))
    (p : String × ℝ) (hp : p ∈ batchCalculateSimilarities qv cvs cns) :
    p.1 ∈ cvs.map Prod.fst := by
  unfold batchCalculateSimilarities at hp
  have hmem := List.mem_of_mem_filter hp
  obtain ⟨q, hq, hEq⟩ := List.mem_map.mp hmem
  rw [← hEq]
  exact List.mem_map_of_mem Prod.fst hq

/-- A successful `lookupAll` returns exactly the keys it was asked for. -/
theorem lookupAll_ok_keys {β : Type} (m : List (String × β)) (ks : List String)
    (l : List (String × β)) (h : lookupAll m ks = .ok l) :
    l.map Prod.fst = ks := by
  induction ks generalizing l with
  | nil =>
    cases h
    rfl
  | cons d rest ih =>
    unfold lookupAll at h
    cases hl : m.lookup d with
    | none => rw [hl] at h; cases h
    | some v =>
      rw [hl] at h
      cases hrec : lookupAll m rest with
      | error e => rw [hrec] at h; cases h
      | ok l' =>
        rw [hrec] at h
        cases h
        simp [ih l' hrec]

/-- The doc_ids of the ranked results a successful `searchCore` returns
are candidates of the processed query. -/
theorem searchCore_ok_results_docIds (e : EngineState) (q : String)
    (out : SearchOutput) (h : searchCore e q = .ok out) (r : RankedEntry)
    (hr : r ∈ out.results) :
    r.docId ∈ getCandidateDocuments e.indexer (processQuery q) := by
  unfold searchCore at h
  dsimp only at h
  split at h
  · cases h
    cases hr
  · split at h
    · cases h
    · rename_i qv hqv
      split at h
      · cases h
        cases hr
      · split at h
        · cases h
          cases hr
        · split at h
          · cases h
          · rename_i cvs hcv
            split at h
            · cases h
            · rename_i cns hcn
              cases h
              simp only [rankResults] at hr
              have hdoc := docId_mem_of_mem_formatEntries (some e.store) 1 _ r hr
              have htake : r.docId ∈ (sortByScoreDesc (filterByThreshold
                  MIN_SIMILARITY_SCORE (batchCalculateSimilarities qv cvs cns))).map
                    Prod.fst :=
                (List.map_subset Prod.fst (List.take_subset _ _)) hdoc
              have hperm := (sortByScoreDesc_perm (filterByThreshold
                  MIN_SIMILARITY_SCORE (batchCalculateSimilarities qv cvs cns))).map Prod.fst
              rw [hperm.mem_iff] at htake
              obtain ⟨p, hp, hpd⟩ := List.mem_map.mp htake
              have hsims : p ∈ batchCalculateSimilarities qv cvs cns :=
                List.mem_of_mem_filter hp
              have hmem := batchCalc_docIds qv cvs cns p hsims
              rw [lookupAll_ok_keys e.indexer.tfidfVectors _ cvs hcv] at hmem
              exact hpd ▸ hmem

/-- Every doc_id in a search's ranked results is a candidate for the
processed query.  (All early returns and the exception path carry empty
result lists.) -/
theorem search_results_docIds (e : EngineState) (q : String) (r : RankedEntry)
    (hr : r ∈ (search e q).results) :
    r.docId ∈ getCandidateDocuments e.indexer (processQuery q) := by
  unfold search at hr
  cases hcore : searchCore e q with
  | error m =>
    rw [hcore] at hr
    cases hr
  | ok out =>
    rw [hcore] at hr
    exact searchCore_ok_results_docIds e q out hcore r hr

end Questify

namespace Questify

/-- **C8.** After `remove_document(id)` returns `True` and the triggered
rebuild completes, `id` appears in no candidate set and in no search's
ranked results. -/
theorem remove_document_purges_candidates_and_results
    (batches : List (List (String × String))) (docId : String)
    (hremoved : (engineRemoveDocument (engineOfBatches batches) docId).1 = true) :
    (∀ terms : List String,
      docId ∉ getCandidateDocuments
        (engineRemoveDocument (engineOfBatches batches) docId).2.indexer terms) ∧
    (∀ q : String,
      ∀ r ∈ (search (engineRemoveDocument (engineOfBatches batches) docId).2 q).results,
        r.docId ≠ docId) := by
  by_cases hsome : ((engineOfBatches batches).store.lookup docId).isSome
  · have he' : engineRemoveDocument (engineOfBatches batches) docId =
        (true,
          { store := removeKey (engineOfBatches batches).store docId,
            indexer :=
              if (removeKey (engineOfBatches batches).store docId).isEmpty
              then initIndexer
              else buildIndex (addDocuments initIndexer
                (removeKey (engineOfBatches batches).store docId)) }) := by
      unfold engineRemoveDocument
      rw [if_pos hsome]
    have hnocand : ∀ terms : List String,
        docId ∉ getCandidateDocuments
          (engineRemoveDocument (engineOfBatches batches) docId).2.indexer terms := by
      intro terms hmem
      rw [he'] at hmem
      rw [mem_getCandidateDocuments] at hmem
      obtain ⟨t, _, hd⟩ := hmem
      by_cases hst : (removeKey (engineOfBatches batches).store docId).isEmpty
      · rw [if_pos hst] at hd
        simp [initIndexer] at hd
      · rw [if_neg hst, buildIndex_inv] at hd
        have hkeys := (indexerInv_addDocuments initIndexer _ indexerInv_init).invSub t docId hd
        have : docId ∈ ((removeKey (engineOfBatches batches).store docId).foldl
            (fun s p => addOne s p.1 p.2) initIndexer).documents.map Prod.fst := hkeys
        rw [mem_keys_foldl_addOne] at this
        rcases this with hbad | hbad
        · simp [initIndexer] at hbad
        · exact not_mem_keys_removeKey _ _ hbad
    refine ⟨hnocand, ?_⟩
    intro q r hr hEq
    have hcand := search_results_docIds _ q r hr
    rw [hEq] at hcand
    exact hnocand (processQuery q) hcand
  · unfold engineRemoveDocument at hremoved
    rw [if_neg hsome] at hremoved
    cases hremoved

/-- Witness for C8: remove `"d1"` from the corpus
`{"d1": "apple", "d2": "banana"}`. -/
theorem remove_document_purges_witness :
    (engineRemoveDocument (engineOfBatches [[("d1", "apple"), ("d2", "banana")]])
        "d1").1 = true ∧
    ((∀ terms : List String,
      "d1" ∉ getCandidateDocuments
        (engineRemoveDocument (engineOfBatches [[("d1", "apple"), ("d2", "banana")]])
          "d1").2.indexer terms) ∧
    (∀ q : String,
      ∀ r ∈ (search (engineRemoveDocument
          (engineOfBatches [[("d1", "apple"), ("d2", "banana")]]) "d1").2 q).results,
        r.docId ≠ "d1")) :=
  ⟨by decide,
    remove_document_purges_candidates_and_results
      [[("d1", "apple"), ("d2", "banana")]] "d1" (by decide)⟩

end Questify

namespace Questify

/-! ## Claim C7: the search boundary's no-result payloads -/

/-- A fresh engine over an empty corpus (nothing ingested, index built). -/
noncomputable def emptyEngine : EngineState := engineOfBatches []

/-- **C7 counterexample.** On an empty corpus the query `"hello"` is valid
but every term misses the (empty) vocabulary: the payload is the
vocabulary-miss error — not the distinct `'No documents contain the query
terms'` message the claim announces — and no candidate count is reported. -/
theorem empty_corpus_message_is_vocabulary_miss :
    (search emptyEngine "hello").queryInfo =
      .err "No matching terms found in vocabulary" ∧
    (search emptyEngine "hello").queryInfo ≠
      .msg "No documents contain the query terms" ∧
    (search emptyEngine "hello").totalCandidates = Option.none ∧
    (search emptyEngine "hello").results = [] := by
  refine ⟨rfl, ?_, rfl, rfl⟩
  intro h
  rw [show (search emptyEngine "hello").queryInfo =
      .err "No matching terms found in vocabulary" from rfl] at h
  cases h

/-- **C7 (amended).** `search` is a total function whose four no-result
payloads (invalid query, vocabulary miss, no candidates, internal error)
are pairwise distinguishable, and an empty corpus yields zero results and
no crash for every query — with the invalid-query error when no valid
terms survive and the vocabulary-miss error otherwise; the 'no documents'
message would require a non-empty query vector, impossible over an empty
vocabulary, and the early returns report no candidate count. -/
theorem search_no_result_payloads :
    (QueryInfo.err "Invalid or empty query" ≠
        QueryInfo.err "No matching terms found in vocabulary" ∧
      QueryInfo.err "Invalid or empty query" ≠
        QueryInfo.msg "No documents contain the query terms" ∧
      QueryInfo.err "No matching terms found in vocabulary" ≠
        QueryInfo.msg "No documents contain the query terms" ∧
      (∀ m, QueryInfo.err ("Search error: " ++ m) ≠
        QueryInfo.msg "No documents contain the query terms")) ∧
    (∀ q : String,
      (search emptyEngine q).results = [] ∧
      (search emptyEngine q).totalResults = 0 ∧
      (search emptyEngine q).totalCandidates = Option.none ∧
      ((search emptyEngine q).queryInfo = .err "Invalid or empty query" ∨
        (search emptyEngine q).queryInfo =
          .err "No matching terms found in vocabulary")) := by
  constructor
  · refine ⟨by simp, by simp, by simp, ?_⟩
    intro m h
    cases h
  · intro q
    unfold search searchCore
    cases hv : validateQuery (processQuery q) with
    | false =>
      simp only [hv, Bool.not_false, if_pos]
      exact ⟨rfl, rfl, rfl, Or.inl rfl⟩
    | true =>
      have hqv : getQueryVector emptyEngine.indexer (processQuery q) = .ok [] := by
        unfold getQueryVector
        by_cases hq : (processQuery q).isEmpty
        · rw [if_pos hq]
        · rw [if_neg hq]
          have hvoc : emptyEngine.indexer.vocabulary = [] := rfl
          rw [show (processQuery q).dedup.filter
              (fun t => emptyEngine.indexer.vocabulary.contains t) = [] by
            simp [hvoc]]
          rfl
      simp only [hv, Bool.not_true, hqv]
      exact ⟨rfl, rfl, rfl, Or.inr rfl⟩

/-! ## Claims C1, C2, C9: the mis-escaped regular expressions -/

/-- **C2 (evaluation).** `_clean_query`'s first substitution matches a
literal `\s+`, not whitespace, and its second deletes every character
outside its class — spaces included.  A two-word query therefore reaches
the preprocessor glued together: the claimed space preservation fails. -/
theorem process_query_deletes_interword_spaces :
    cleanQuery "machine learning" = "machinelearning" ∧
    processQuery "machine learning" = ["machinelearning"] ∧
    processQuery "machine learning" ≠ ["machine", "learning"] := by
  refine ⟨by decide, by decide, by decide⟩

/-- **C9 (evaluation).** The character class of `preprocess`'s substitution
keeps the literal backslash (the `\\` of the raw string), so a backslash
is not replaced by whitespace: `"abc\def"` stays one 7-character token
instead of splitting into `abc` and `def`. -/
theorem preprocess_keeps_backslash :
    preprocess true 3 "abc\\def" = ["abc\\def"] ∧
    preprocess true 3 "abc\\def" ≠ ["abc", "def"] := by
  refine ⟨by decide, by decide⟩

/-- The Scenario A engine: the three-document corpus of the spec, added
in one `add_documents` call and built. -/
noncomputable def scenarioA : EngineState :=
  engineOfBatches [[("d1", "machine learning algorithms"),
                    ("d2", "deep learning neural networks"),
                    ("d3", "cooking recipes")]]

/-- **C1 (evaluation).** Scenario A on the code: the query
`"machine learning"` collapses to the single token `"machinelearning"`,
which is not in the vocabulary, so `search` returns the vocabulary-miss
error with zero results and the candidate set is empty — `d1` and `d2`
are not candidates. -/
theorem scenarioA_query_misses_vocabulary :
    processQuery "machine learning" = ["machinelearning"] ∧
    getCandidateDocuments scenarioA.indexer (processQuery "machine learning") = [] ∧
    (search scenarioA "machine learning").queryInfo =
      .err "No matching terms found in vocabulary" ∧
    (search scenarioA "machine learning").results = [] := by
  refine ⟨by decide, by decide, rfl, rfl⟩

end Questify
